import Mathlib

/-!
Verification of the lwiperf session engine (src/lwip/src/apps/lwiperf/lwiperf.c).

Shallow embedding conventions:
* pointers to sessions are modelled by natural-number identities (`sid`);
  a null pointer field is `Option.none`;
* machine integers are `Nat` with explicit `% 2^32` / `% 2^64` where the C
  code relies on unsigned wraparound; the platform `long` used by the jitter
  estimator is a signed 32-bit value, modelled as `Int` via `toInt32`;
* the global singly linked session list `lwiperf_all_connections` is a
  `List Session`; traversal order matches the C list order;
* transport side effects (udp_send, pbuf_alloc) are supplied by oracles.
-/

/-- The part of `struct _lwiperf_state_base` that the registry operations
read and write: the identity (pointer) of the session, whether it is TCP,
the live master reference `related_master_state`, and the remembered
`deallocated_master_state_address`. -/
structure Session where
  sid : Nat
  tcp : Bool
  master : Option Nat
  dealloc : Option Nat
deriving DecidableEq, Repr

/-- The fix-up applied by `lwiperf_list_remove` to each node of the list:
if a node's `related_master_state` equals the item being removed, the
reference is cleared and the removed identity is remembered in
`deallocated_master_state_address` (lwiperf.c lines 324-328). -/
def removeFixup (x : Nat) (n : Session) : Session :=
  if n.master = some x then { n with master := none, dealloc := some x } else n

/-- `lwiperf_list_remove` (lwiperf.c lines 316-341): one pass over the whole
list; every node whose master reference equals the removed item is fixed up,
and the removed item itself is unlinked. -/
def lwiperf_list_remove (x : Nat) : List Session → List Session
  | [] => []
  | n :: rest =>
    let n' := removeFixup x n
    if n'.sid = x then lwiperf_list_remove x rest
    else n' :: lwiperf_list_remove x rest

/-- The match condition of the `lwiperf_abort` loop (lwiperf.c lines
1901-1902): the visited node is the session being aborted, or its live
master reference equals it, or its remembered deallocated master address
equals it. -/
def abortMatches (h : Nat) (n : Session) : Bool :=
  decide (n.sid = h ∨ n.master = some h ∨ n.dealloc = some h)

theorem lwiperf_list_remove_length_le (x : Nat) (l : List Session) :
    (lwiperf_list_remove x l).length ≤ l.length := by
  induction l with
  | nil => simp [lwiperf_list_remove]
  | cons n rest ih =>
    simp only [lwiperf_list_remove]
    split
    · exact Nat.le_succ_of_le ih
    · simpa using Nat.succ_le_succ ih

/-- The traversal of `lwiperf_abort` (lwiperf.c lines 1900-1917), as a
zipper over the global list: `visited` holds the already-visited survivors
(in list order), `rest` the part still to scan, `closed` the identities
closed so far.  Closing a matching node calls `lwiperf_tcp_close` /
`lwiperf_udp_close`, whose `lwiperf_list_remove` rescans the whole
remaining global list (visited survivors and unvisited tail) and applies
the master-reference fix-up; the node itself was already unlinked by the
abort loop (`last->next = i`, or by `lwiperf_list_remove` when it was the
head). -/
def lwiperf_abort_go (h : Nat) : List Session → List Session → List Nat →
    List Session × List Nat
  | visited, [], closed => (visited, closed)
  | visited, n :: rest, closed =>
    if abortMatches h n then
      lwiperf_abort_go h (lwiperf_list_remove n.sid visited)
        (lwiperf_list_remove n.sid rest) (closed ++ [n.sid])
    else
      lwiperf_abort_go h (visited ++ [n]) rest closed
  termination_by _ rest _ => rest.length
  decreasing_by
    all_goals simp_wf
    all_goals exact Nat.lt_succ_of_le (lwiperf_list_remove_length_le _ _)

/-- `lwiperf_abort` (lwiperf.c lines 1893-1918) on the global session list:
returns the surviving list and the identities of the sessions that were
closed (each closed session is reported and freed exactly once). -/
def lwiperf_abort (h : Nat) (l : List Session) : List Session × List Nat :=
  lwiperf_abort_go h [] l []

/-- Reachable-state invariant of a session: the live master reference and
the remembered deallocated master address are never both set.  The code
only sets `deallocated_master_state_address` at the moment it clears
`related_master_state` (lwiperf.c lines 324-328), and never reassigns a
master reference to an existing session afterwards. -/
def SessionInv (n : Session) : Prop :=
  n.master = none ∨ n.dealloc = none

instance (n : Session) : Decidable (SessionInv n) := by
  unfold SessionInv; infer_instance

theorem removeFixup_sid (x : Nat) (n : Session) :
    (removeFixup x n).sid = n.sid := by
  unfold removeFixup; split <;> rfl

theorem removeFixup_inv (x : Nat) (n : Session) (h : SessionInv n) :
    SessionInv (removeFixup x n) := by
  unfold removeFixup SessionInv
  split
  · left; rfl
  · exact h

theorem removeFixup_matches (h x : Nat) (n : Session) (hn : SessionInv n) :
    abortMatches h (removeFixup x n) = abortMatches h n := by
  unfold removeFixup abortMatches
  split
  case isTrue hm =>
    rcases hn with hn | hn
    · rw [hn] at hm; cases hm
    · simp [hm, hn]
  case isFalse hm => rfl

theorem lwiperf_list_remove_eq_map (x : Nat) (l : List Session)
    (hx : x ∉ l.map Session.sid) :
    lwiperf_list_remove x l = l.map (removeFixup x) := by
  induction l with
  | nil => rfl
  | cons n rest ih =>
    simp only [List.map_cons, List.mem_cons, not_or] at hx
    simp only [lwiperf_list_remove, List.map_cons]
    rw [if_neg, ih hx.2]
    rw [removeFixup_sid]
    exact fun he => hx.1 he.symm

theorem filter_matches_map_removeFixup (h x : Nat) (l : List Session)
    (hinv : ∀ n ∈ l, SessionInv n) :
    (l.map (removeFixup x)).filter (abortMatches h)
      = (l.filter (abortMatches h)).map (removeFixup x) := by
  induction l with
  | nil => rfl
  | cons n rest ih =>
    have hn := hinv n (List.mem_cons_self n rest)
    have ihr := ih (fun m hm => hinv m (List.mem_cons_of_mem n hm))
    simp only [List.map_cons, List.filter_cons, removeFixup_matches h x n hn]
    split
    · simp [ihr]
    · exact ihr

theorem map_sid_map_removeFixup (x : Nat) (l : List Session) :
    (l.map (removeFixup x)).map Session.sid = l.map Session.sid := by
  rw [List.map_map]
  exact List.map_congr_left (fun n _ => removeFixup_sid x n)

theorem lwiperf_abort_go_spec (h : Nat) :
    ∀ (fuel : Nat) (rest : List Session), rest.length ≤ fuel →
    ∀ (visited : List Session) (closed : List Nat),
    (∀ n ∈ visited ++ rest, SessionInv n) →
    ((visited ++ rest).map Session.sid).Nodup →
    (lwiperf_abort_go h visited rest closed).2
        = closed ++ (rest.filter (abortMatches h)).map Session.sid
    ∧ ((∀ n ∈ visited, abortMatches h n = false) →
        ∀ n ∈ (lwiperf_abort_go h visited rest closed).1,
          abortMatches h n = false) := by
  intro fuel
  induction fuel with
  | zero =>
    intro rest hr visited closed hinv hnd
    have hrest : rest = [] := List.length_eq_zero.mp (Nat.le_zero.mp hr)
    subst hrest
    constructor
    · simp [lwiperf_abort_go]
    · intro hv n hn
      simp only [lwiperf_abort_go] at hn
      exact hv n hn
  | succ f ih =>
    intro rest hr visited closed hinv hnd
    match rest with
    | [] =>
      constructor
      · simp [lwiperf_abort_go]
      · intro hv n hn
        simp only [lwiperf_abort_go] at hn
        exact hv n hn
    | n :: rest' =>
      have hinv_n : SessionInv n := hinv n (by simp)
      have hinv_v : ∀ m ∈ visited, SessionInv m := fun m hm => hinv m (by simp [hm])
      have hinv_r : ∀ m ∈ rest', SessionInv m := fun m hm => hinv m (by simp [hm])
      rw [List.map_append, List.nodup_append] at hnd
      obtain ⟨hnd_v, hnd_cons, hdisj⟩ := hnd
      rw [List.map_cons, List.nodup_cons] at hnd_cons
      obtain ⟨hsid_r, hnd_r⟩ := hnd_cons
      have hsid_v : n.sid ∉ visited.map Session.sid :=
        fun hmem => hdisj hmem (by simp)
      by_cases hm : abortMatches h n
      · rw [lwiperf_abort_go, if_pos hm]
        rw [lwiperf_list_remove_eq_map n.sid visited hsid_v,
            lwiperf_list_remove_eq_map n.sid rest' hsid_r]
        have hlen : (rest'.map (removeFixup n.sid)).length ≤ f := by
          simpa using Nat.le_of_succ_le_succ hr
        have hinv' : ∀ m ∈ visited.map (removeFixup n.sid)
            ++ rest'.map (removeFixup n.sid), SessionInv m := by
          intro m hmm
          rcases List.mem_append.mp hmm with hmm | hmm
          · obtain ⟨m₀, hm₀, rfl⟩ := List.mem_map.mp hmm
            exact removeFixup_inv _ _ (hinv_v m₀ hm₀)
          · obtain ⟨m₀, hm₀, rfl⟩ := List.mem_map.mp hmm
            exact removeFixup_inv _ _ (hinv_r m₀ hm₀)
        have hnd' : ((visited.map (removeFixup n.sid)
            ++ rest'.map (removeFixup n.sid)).map Session.sid).Nodup := by
          rw [List.map_append, map_sid_map_removeFixup, map_sid_map_removeFixup,
              List.nodup_append]
          exact ⟨hnd_v, hnd_r, fun a ha ha' => hdisj ha (by simp [ha'])⟩
        have := ih (rest'.map (removeFixup n.sid)) hlen
          (visited.map (removeFixup n.sid)) (closed ++ [n.sid]) hinv' hnd'
        constructor
        · rw [this.1]
          rw [filter_matches_map_removeFixup h n.sid rest' hinv_r,
              map_sid_map_removeFixup]
          simp [hm]
        · intro hv
          apply this.2
          intro m hmm
          obtain ⟨m₀, hm₀, rfl⟩ := List.mem_map.mp hmm
          rw [removeFixup_matches h n.sid m₀ (hinv_v m₀ hm₀)]
          exact hv m₀ hm₀
      · rw [lwiperf_abort_go, if_neg hm]
        have hre : visited ++ n :: rest' = (visited ++ [n]) ++ rest' := by
          simp
        have hinv' : ∀ m ∈ (visited ++ [n]) ++ rest', SessionInv m := by
          rw [← hre]; exact hinv
        have hnd' : (((visited ++ [n]) ++ rest').map Session.sid).Nodup := by
          rw [← hre, List.map_append, List.nodup_append]
          refine ⟨hnd_v, ?_, hdisj⟩
          rw [List.map_cons, List.nodup_cons]
          exact ⟨hsid_r, hnd_r⟩
        have := ih rest' (Nat.le_of_succ_le_succ hr) (visited ++ [n]) closed
          hinv' hnd'
        constructor
        · rw [this.1]
          simp [List.filter_cons, hm]
        · intro hv
          apply this.2
          intro m hmm
          rcases List.mem_append.mp hmm with hmm | hmm
          · exact hv m hmm
          · rw [List.mem_singleton.mp hmm]
            exact Bool.not_eq_true _ ▸ (by simpa using hm)

theorem lwiperf_abort_go_nomatch (h : Nat) :
    ∀ (rest visited : List Session) (closed : List Nat),
    (∀ n ∈ rest, abortMatches h n = false) →
    lwiperf_abort_go h visited rest closed = (visited ++ rest, closed) := by
  intro rest
  induction rest with
  | nil => intro visited closed _; simp [lwiperf_abort_go]
  | cons n rest' ih =>
    intro visited closed hm
    rw [lwiperf_abort_go, if_neg (by simp [hm n (by simp)])]
    rw [ih (visited ++ [n]) closed (fun m hmm => hm m (by simp [hmm]))]
    simp

theorem removeFixup_master_ne (x : Nat) (n : Session) :
    (removeFixup x n).master ≠ some x := by
  unfold removeFixup
  split
  · simp
  · assumption

/-- C4: `lwiperf_list_remove` scans the entire list; every surviving session
whose `related_master_state` equals the removed session has that reference
cleared and the removed identity recorded in
`deallocated_master_state_address`; all other survivors are untouched; and
afterwards no registered session's live master reference equals the removed
identity (and the removed session itself is no longer registered). -/
theorem lwiperf_list_remove_clears_master_refs (x : Nat) (l : List Session) :
    (∀ n ∈ lwiperf_list_remove x l, n.master ≠ some x ∧ n.sid ≠ x)
    ∧ (∀ n ∈ l, n.sid ≠ x → n.master = some x →
        { n with master := none, dealloc := some x } ∈ lwiperf_list_remove x l)
    ∧ (∀ n ∈ l, n.sid ≠ x → n.master ≠ some x → n ∈ lwiperf_list_remove x l) := by
  induction l with
  | nil => simp [lwiperf_list_remove]
  | cons n rest ih =>
    obtain ⟨ih1, ih2, ih3⟩ := ih
    by_cases hs : n.sid = x
    · rw [lwiperf_list_remove, if_pos (by rwa [removeFixup_sid])]
      refine ⟨ih1, ?_, ?_⟩
      · intro m hm hms hmm
        rcases List.mem_cons.mp hm with rfl | hm
        · exact absurd hs hms
        · exact ih2 m hm hms hmm
      · intro m hm hms hmm
        rcases List.mem_cons.mp hm with rfl | hm
        · exact absurd hs hms
        · exact ih3 m hm hms hmm
    · rw [lwiperf_list_remove, if_neg (by rwa [removeFixup_sid])]
      refine ⟨?_, ?_, ?_⟩
      · intro m hm
        rcases List.mem_cons.mp hm with rfl | hm
        · exact ⟨removeFixup_master_ne x n, by rwa [removeFixup_sid]⟩
        · exact ih1 m hm
      · intro m hm hms hmm
        rcases List.mem_cons.mp hm with rfl | hm
        · have hfix : removeFixup x m = { m with master := none, dealloc := some x } := by
            unfold removeFixup; rw [if_pos hmm]
          rw [hfix]
          exact List.mem_cons_self _ _
        · exact List.mem_cons_of_mem _ (ih2 m hm hms hmm)
      · intro m hm hms hmm
        rcases List.mem_cons.mp hm with rfl | hm
        · have hfix : removeFixup x m = m := by
            unfold removeFixup; rw [if_neg hmm]
          rw [hfix]
          exact List.mem_cons_self _ _
        · exact List.mem_cons_of_mem _ (ih3 m hm hms hmm)

/-- Concrete instantiation for `lwiperf_list_remove_clears_master_refs`:
removing session 7 from a three-element registry where session 9's master
reference is 7. -/
theorem lwiperf_list_remove_clears_master_refs_witness :
    ((⟨9, true, some 7, none⟩ : Session).master = some 7
      ∧ ∀ n ∈ lwiperf_list_remove 7
          [⟨7, true, none, none⟩, ⟨9, true, some 7, none⟩, ⟨4, false, none, none⟩],
          n.master ≠ some 7 ∧ n.sid ≠ 7)
    ∧ (⟨9, true, none, some 7⟩ : Session) ∈ lwiperf_list_remove 7
        [⟨7, true, none, none⟩, ⟨9, true, some 7, none⟩, ⟨4, false, none, none⟩] := by
  refine ⟨⟨rfl, (lwiperf_list_remove_clears_master_refs 7 _).1⟩, ?_⟩
  exact (lwiperf_list_remove_clears_master_refs 7
    [⟨7, true, none, none⟩, ⟨9, true, some 7, none⟩, ⟨4, false, none, none⟩]).2.1
    ⟨9, true, some 7, none⟩ (by simp) (by decide) (by decide)

/-- Registry used to instantiate the abort theorem: session 1 is a master,
session 2 is its auxiliary, session 3 is an auxiliary of session 2. -/
def demoSessions : List Session :=
  [⟨1, true, none, none⟩, ⟨2, false, some 1, none⟩, ⟨3, false, some 2, none⟩]

/-- C3: on any registry satisfying the reachable-state invariants (unique
session identities; master reference and remembered deallocated address
never both set), `lwiperf_abort h` closes, in its single traversal, exactly
those registered sessions that are `h` itself, have `h` as live master
reference, or remember `h` as deallocated master address — and a second
`lwiperf_abort` with the same `h` leaves the registry unchanged and closes
(hence frees and reports) nothing. -/
theorem lwiperf_abort_closes_matching_and_idempotent (h : Nat)
    (l : List Session)
    (hinv : ∀ n ∈ l, SessionInv n)
    (hnd : (l.map Session.sid).Nodup) :
    (lwiperf_abort h l).2 = (l.filter (abortMatches h)).map Session.sid
    ∧ lwiperf_abort h (lwiperf_abort h l).1 = ((lwiperf_abort h l).1, []) := by
  have hspec := lwiperf_abort_go_spec h l.length l le_rfl [] []
      (by simpa using hinv) (by simpa using hnd)
  refine ⟨by simpa [lwiperf_abort] using hspec.1, ?_⟩
  have hnm : ∀ n ∈ (lwiperf_abort h l).1, abortMatches h n = false := by
    intro n hn
    exact hspec.2 (by simp) n (by simpa [lwiperf_abort] using hn)
  show lwiperf_abort_go h [] (lwiperf_abort h l).1 [] = _
  rw [lwiperf_abort_go_nomatch h _ [] [] hnm]
  simp

/-- Concrete instantiation for `lwiperf_abort_closes_matching_and_idempotent`
on `demoSessions` with handle 1. -/
theorem lwiperf_abort_spec_witness :
    (lwiperf_abort 1 demoSessions).2
        = (demoSessions.filter (abortMatches 1)).map Session.sid
    ∧ lwiperf_abort 1 (lwiperf_abort 1 demoSessions).1
        = ((lwiperf_abort 1 demoSessions).1, []) :=
  lwiperf_abort_closes_matching_and_idempotent 1 demoSessions
    (by decide) (by decide)

/-- The sequence-tracking counters of a UDP receive session
(`struct _lwiperf_state_udp`): all are unsigned 32-bit in the C code except
`bytes_transferred`, which is 64-bit. -/
structure UdpRxStats where
  udp_seq : Nat
  udp_rx_lost : Nat
  udp_rx_outorder : Nat
  udp_rx_total_pkt : Nat
  bytes_transferred : Nat
deriving DecidableEq, Repr

/-- The per-datagram statistics update of `lwiperf_udp_recv` for a
non-negative datagram id (lwiperf.c lines 1572-1585): if the id differs
from the expected next sequence number, the unsigned 32-bit gap
`id - udp_seq` is added to the loss counter, the expected next value is
resynchronised to `id + 1` and one out-of-order event is counted;
otherwise the expected next value advances by one.  Bytes and the received
packet count accumulate in both branches. -/
def lwiperf_udp_recv_stats (datagramID tot_len : Nat) (s : UdpRxStats) :
    UdpRxStats :=
  let did := datagramID % 2^32
  if s.udp_seq ≠ did then
    { udp_seq := (did + 1) % 2^32
      udp_rx_lost := (s.udp_rx_lost + (did + 2^32 - s.udp_seq % 2^32)) % 2^32
      udp_rx_outorder := (s.udp_rx_outorder + 1) % 2^32
      udp_rx_total_pkt := (s.udp_rx_total_pkt + 1) % 2^32
      bytes_transferred := (s.bytes_transferred + tot_len) % 2^64 }
  else
    { s with
      udp_seq := (s.udp_seq + 1) % 2^32
      udp_rx_total_pkt := (s.udp_rx_total_pkt + 1) % 2^32
      bytes_transferred := (s.bytes_transferred + tot_len) % 2^64 }

/-- A sequence of datagram arrivals, each a pair of id and total length,
processed in order by `lwiperf_udp_recv`. -/
def udpRxRun (pkts : List (Nat × Nat)) (s : UdpRxStats) : UdpRxStats :=
  pkts.foldl (fun st pk => lwiperf_udp_recv_stats pk.1 pk.2 st) s

/-- The state of a freshly allocated UDP receive session
(`lwiperf_udp_new_client` zero-initialises the whole structure). -/
def freshUdpRxStats : UdpRxStats := ⟨0, 0, 0, 0, 0⟩

/-- C1 counterexample: delivering ids [0,1,3,2,4] to a fresh receiver does
NOT produce loss count 1 and out-of-order count 1; the gap accounting is
done in unsigned 32-bit arithmetic and every mismatching id counts one
out-of-order event. -/
theorem udp_rx_sequence_01324_claim_false :
    ¬ ((udpRxRun [(0, 1470), (1, 1470), (3, 1470), (2, 1470), (4, 1470)]
          freshUdpRxStats).udp_rx_lost = 1
      ∧ (udpRxRun [(0, 1470), (1, 1470), (3, 1470), (2, 1470), (4, 1470)]
          freshUdpRxStats).udp_rx_outorder = 1
      ∧ (udpRxRun [(0, 1470), (1, 1470), (3, 1470), (2, 1470), (4, 1470)]
          freshUdpRxStats).udp_rx_total_pkt = 5) := by
  decide

/-- C1 (amended): delivering ids [0,1,3,2,4] to a fresh receiver yields
loss count 0 (the gap contributes +1 at id 3, then the unsigned 32-bit
difference 2 - 4 contributes 2^32 - 2, then +1 at id 4, which sums to 0
modulo 2^32), out-of-order count 3 (ids 3, 2 and 4 each mismatch the
expected next value), and received-packet count 5. -/
theorem udp_rx_sequence_01324_counts :
    (udpRxRun [(0, 1470), (1, 1470), (3, 1470), (2, 1470), (4, 1470)]
        freshUdpRxStats).udp_rx_lost = 0
    ∧ (udpRxRun [(0, 1470), (1, 1470), (3, 1470), (2, 1470), (4, 1470)]
        freshUdpRxStats).udp_rx_outorder = 3
    ∧ (udpRxRun [(0, 1470), (1, 1470), (3, 1470), (2, 1470), (4, 1470)]
        freshUdpRxStats).udp_rx_total_pkt = 5 := by
  decide


theorem udpRxRun_inorder (pkts : List (Nat × Nat)) :
    ∀ (k L O T B : Nat),
    pkts.map Prod.fst = List.range' k pkts.length →
    k + pkts.length ≤ 2^31 → T + pkts.length < 2^32 →
    (udpRxRun pkts ⟨k, L, O, T, B⟩).udp_seq = k + pkts.length
    ∧ (udpRxRun pkts ⟨k, L, O, T, B⟩).udp_rx_lost = L
    ∧ (udpRxRun pkts ⟨k, L, O, T, B⟩).udp_rx_outorder = O
    ∧ (udpRxRun pkts ⟨k, L, O, T, B⟩).udp_rx_total_pkt = T + pkts.length := by
  induction pkts with
  | nil =>
    intro k L O T B _ _ _
    simp [udpRxRun]
  | cons pk rest ih =>
    intro k L O T B hmap hk hT
    obtain ⟨a, len⟩ := pk
    simp only [List.length_cons, List.map_cons, List.range'_succ] at hmap
    have hha : a = k := by injection hmap
    have hhrest : rest.map Prod.fst = List.range' (k + 1) rest.length := by
      injection hmap
    rw [hha]
    simp only [List.length_cons] at hk hT ⊢
    norm_num at hk hT
    have hkm : k % 4294967296 = k := Nat.mod_eq_of_lt (by omega)
    have hk1 : (k + 1) % 4294967296 = k + 1 := Nat.mod_eq_of_lt (by omega)
    have hT1 : (T + 1) % 4294967296 = T + 1 := Nat.mod_eq_of_lt (by omega)
    have hstep : lwiperf_udp_recv_stats (k, len).1 (k, len).2 ⟨k, L, O, T, B⟩
        = ⟨k + 1, L, O, T + 1, (B + len) % 2^64⟩ := by
      show lwiperf_udp_recv_stats k len ⟨k, L, O, T, B⟩ = _
      simp only [lwiperf_udp_recv_stats]
      norm_num [hkm]
      exact ⟨by omega, by omega⟩
    simp only [udpRxRun, List.foldl_cons] at *
    rw [hstep]
    have ihr := ih (k + 1) L O (T + 1) ((B + len) % 2^64) hhrest
      (by norm_num; omega) (by norm_num; omega)
    refine ⟨?_, ihr.2.1, ihr.2.2.1, ?_⟩
    · rw [ihr.1]; omega
    · rw [ihr.2.2.2]; omega

/-- C7: for every N and any arrival of N datagrams carrying the strictly
increasing ids 0..N-1 (each non-negative and representable as a signed
32-bit wire id, hence N at most 2^31), a fresh UDP receiver reports loss
count 0, out-of-order count 0, and received-packet count N. -/
theorem udp_rx_inorder_no_loss (N : Nat) (pkts : List (Nat × Nat))
    (hN : N ≤ 2^31) (hids : pkts.map Prod.fst = List.range N) :
    (udpRxRun pkts freshUdpRxStats).udp_rx_lost = 0
    ∧ (udpRxRun pkts freshUdpRxStats).udp_rx_outorder = 0
    ∧ (udpRxRun pkts freshUdpRxStats).udp_rx_total_pkt = N := by
  have hlen : pkts.length = N := by
    have := congrArg List.length hids
    simpa using this
  have hmap : pkts.map Prod.fst = List.range' 0 pkts.length := by
    rw [hids, hlen, List.range_eq_range']
  unfold freshUdpRxStats
  have hrun := udpRxRun_inorder pkts 0 0 0 0 0 hmap (by omega) (by omega)
  exact ⟨hrun.2.1, hrun.2.2.1, by rw [hrun.2.2.2]; omega⟩

/-- Concrete instantiation for `udp_rx_inorder_no_loss`: three in-order
datagrams with varying lengths. -/
theorem udp_rx_inorder_no_loss_witness :
    (udpRxRun [(0, 10), (1, 1470), (2, 600)] freshUdpRxStats).udp_rx_lost = 0
    ∧ (udpRxRun [(0, 10), (1, 1470), (2, 600)]
        freshUdpRxStats).udp_rx_outorder = 0
    ∧ (udpRxRun [(0, 10), (1, 1470), (2, 600)]
        freshUdpRxStats).udp_rx_total_pkt = 3 :=
  udp_rx_inorder_no_loss 3 [(0, 10), (1, 1470), (2, 600)]
    (by norm_num) (by decide)

/-- Reinterpret an unsigned 32-bit value as a signed 32-bit integer, as the
cast `(long)(transit - conn->udp_last_transit)` does on the 32-bit target. -/
def toInt32 (x : Nat) : Int :=
  if x % 2^32 < 2^31 then ((x % 2^32 : Nat) : Int)
  else ((x % 2^32 : Nat) : Int) - 2^32

/-- The jitter estimator state of a UDP receive session: the running
`jitter` (a signed 32-bit `long`, in microseconds) and `udp_last_transit`
(unsigned 32-bit, microseconds; zero means no sample has been taken). -/
structure JitterState where
  jitter : Int
  udp_last_transit : Nat
deriving DecidableEq, Repr

/-- The jitter update of `lwiperf_udp_recv` (lwiperf.c lines 1592-1601)
for one datagram whose transit time (arrival minus embedded send
timestamp) is `transit` microseconds.  If `udp_last_transit` is non-zero,
`deltaTransit` is the unsigned 32-bit difference `transit -
udp_last_transit` reinterpreted as signed, its absolute value feeds
`jitter += (deltaTransit - jitter) >> 4` (arithmetic shift, i.e. flooring
division by 16) — and `udp_last_transit` is NOT updated.  Otherwise
`udp_last_transit` is seeded with `transit` and `jitter` is unchanged. -/
def lwiperf_udp_recv_jitter (transit : Nat) (s : JitterState) : JitterState :=
  if s.udp_last_transit ≠ 0 then
    let deltaTransit := toInt32 (transit % 2^32 + 2^32 - s.udp_last_transit % 2^32)
    let d := if deltaTransit < 0 then -deltaTransit else deltaTransit
    { s with jitter := s.jitter + Int.fdiv (d - s.jitter) 16 }
  else
    { s with udp_last_transit := transit % 2^32 }

/-- Feed a sequence of per-datagram transit times (microseconds) through
the jitter estimator, starting from the zero-initialised session state. -/
def jitterRunCode (transits : List Nat) : JitterState :=
  transits.foldl (fun s t => lwiperf_udp_recv_jitter t s) ⟨0, 0⟩

/-- The jitter recurrence exactly as the specification (and the code's own
RFC 1889 comment) states it: the first sample only seeds the baseline;
for every later datagram, deltaTransit is this datagram's transit time
minus the PREVIOUS datagram's transit time, and
`jitter += (|deltaTransit| - jitter) / 16`. -/
structure JitterSpecState where
  jitter : Int
  prevTransit : Option Nat
deriving DecidableEq, Repr

/-- One step of the specification's jitter recurrence. -/
def jitterSpecStep (transit : Nat) (s : JitterSpecState) : JitterSpecState :=
  match s.prevTransit with
  | none => { s with prevTransit := some transit }
  | some prev =>
    let delta := (transit : Int) - (prev : Int)
    let d := if delta < 0 then -delta else delta
    { jitter := s.jitter + Int.tdiv (d - s.jitter) 16, prevTransit := some transit }

/-- Run of the specification's jitter recurrence from the fresh state. -/
def jitterRunSpec (transits : List Nat) : JitterSpecState :=
  transits.foldl (fun s t => jitterSpecStep t s) ⟨0, none⟩

/-- C5: the code diverges from the specified recurrence because
`udp_last_transit` is never updated after the first sample, so every
deltaTransit is measured against the FIRST datagram's transit time rather
than the previous datagram's.  On transit times [100, 200, 200] µs the
code computes jitter 11 (0 then +floor(100/16)=6 then +floor(94/16)=5),
while the specified recurrence computes 6 (+6 from delta 100, then delta
200-200 = 0 gives +trunc(-6/16) = 0). -/
theorem udp_jitter_baseline_divergence :
    (jitterRunCode [100, 200, 200]).jitter = 11
    ∧ (jitterRunCode [100, 200, 200]).udp_last_transit = 100
    ∧ (jitterRunSpec [100, 200, 200]).jitter = 6 := by
  decide

/-- The report types produced by the TCP send scheduler when it reaches
its configured byte or time target (enum lwiperf_report_type, restricted
to the two values reachable from `lwiperf_tcp_client_send_more`). -/
inductive TcpDoneReason where
  | doneServerTx
  | doneClientTx
deriving DecidableEq, Repr

/-- The termination check at the head of the `lwiperf_tcp_client_send_more`
loop (lwiperf.c lines 430-452): `amount` is the host-order 32-bit value of
`settings.base.amount`; its top bit set means a time target (magnitude in
units of 10 ms), otherwise a byte target compared against the cumulative
64-bit `bytes_transferred`.  Returns the done reason when the session is
closed, `none` when sending continues. -/
def lwiperf_tcp_send_check (amount : Nat) (reverse : Bool)
    (bytes now time_started : Nat) : Option TcpDoneReason :=
  if amount % 2^32 ≥ 2^31 then
    let time := 2^32 - amount % 2^32
    let time_ms := (time * 10) % 2^32
    let diff_ms := (now % 2^32 + 2^32 - time_started % 2^32) % 2^32
    if diff_ms ≥ time_ms then
      some (if reverse then .doneServerTx else .doneClientTx)
    else none
  else
    if bytes ≥ amount % 2^32 then
      some (if reverse then .doneServerTx else .doneClientTx)
    else none

/-- C6: with amount encoded as 1048576 (a byte target), the TCP send
scheduler closes the session with a done reason exactly when the
cumulative byte count reaches 1,048,576, and in particular does not close
at 1,048,575 or below, regardless of clock values and direction. -/
theorem tcp_byte_limited_close_threshold (reverse : Bool)
    (bytes now time_started : Nat) :
    (lwiperf_tcp_send_check 1048576 reverse bytes now time_started
        = some (if reverse then .doneServerTx else .doneClientTx)
      ↔ 1048576 ≤ bytes)
    ∧ (bytes ≤ 1048575 →
        lwiperf_tcp_send_check 1048576 reverse bytes now time_started = none) := by
  unfold lwiperf_tcp_send_check
  norm_num
  by_cases hb : 1048576 ≤ bytes
  · simp [hb]
    omega
  · simp [hb]

/-- Concrete instantiation for `tcp_byte_limited_close_threshold`: at
1,048,575 bytes the session stays open, at 1,048,576 it closes. -/
theorem tcp_byte_limited_close_threshold_witness :
    lwiperf_tcp_send_check 1048576 false 1048575 5000 0 = none
    ∧ (lwiperf_tcp_send_check 1048576 false 1048576 5000 0
        = some TcpDoneReason.doneClientTx) := by
  refine ⟨(tcp_byte_limited_close_threshold false 1048575 5000 0).2 (by norm_num), ?_⟩
  have := (tcp_byte_limited_close_threshold false 1048576 5000 0).1.mpr (by norm_num)
  simpa using this

/-- The data passed to the report callback that depends on the duration /
bandwidth computation (endpoint fields are opaque to this development). -/
structure IperfReport where
  bytes : Nat
  duration_ms : Nat
  bandwidth_kbitpsec : Nat
deriving DecidableEq, Repr

/-- `lwip_tcp_conn_report` (lwiperf.c lines 356-382): if a report callback
is registered, it receives `duration_ms = now - time_started` (unsigned
32-bit) and `bandwidth_kbitpsec = bytes * 8 / duration_ms` truncated to
32 bits, with bandwidth 0 when the duration is 0; with no callback the
function does nothing. -/
def lwip_tcp_conn_report (hasReportFn : Bool) (now time_started bytes : Nat) :
    Option IperfReport :=
  if hasReportFn then
    let duration_ms := (now % 2^32 + 2^32 - time_started % 2^32) % 2^32
    let bandwidth :=
      if duration_ms = 0 then 0 else (bytes % 2^64 * 8 / duration_ms) % 2^32
    some ⟨bytes % 2^64, duration_ms, bandwidth⟩
  else none

/-- `lwip_udp_conn_report` (lwiperf.c lines 1049-1084): identical duration
and bandwidth computation (the code writes `8 * bytes` instead of
`bytes * 8`); with no callback the function does nothing. -/
def lwip_udp_conn_report (hasReportFn : Bool) (now time_started bytes : Nat) :
    Option IperfReport :=
  if hasReportFn then
    let duration_ms := (now % 2^32 + 2^32 - time_started % 2^32) % 2^32
    let bandwidth :=
      if duration_ms = 0 then 0 else (8 * (bytes % 2^64) / duration_ms) % 2^32
    some ⟨bytes % 2^64, duration_ms, bandwidth⟩
  else none

/-- C9: for in-range inputs (32-bit clock values, 64-bit byte counter, and
a bandwidth quotient that fits 32 bits) both report emitters compute
`duration = now - start_time` and `bandwidth = 0` when the duration is 0,
otherwise `bytes * 8 / duration`; and with no registered callback both are
no-ops producing nothing. -/
theorem conn_report_duration_bandwidth (now time_started bytes : Nat)
    (hst : time_started ≤ now) (hnow : now < 2^32) (hb : bytes < 2^64)
    (hbw : bytes * 8 / (now - time_started) < 2^32) :
    lwip_tcp_conn_report true now time_started bytes
        = some ⟨bytes, now - time_started,
            if now - time_started = 0 then 0
            else bytes * 8 / (now - time_started)⟩
    ∧ lwip_udp_conn_report true now time_started bytes
        = some ⟨bytes, now - time_started,
            if now - time_started = 0 then 0
            else bytes * 8 / (now - time_started)⟩
    ∧ (∀ n s b, lwip_tcp_conn_report false n s b = none
        ∧ lwip_udp_conn_report false n s b = none) := by
  have hstlt : time_started < 2^32 := lt_of_le_of_lt hst hnow
  have hdur : (now % 2^32 + 2^32 - time_started % 2^32) % 2^32
      = now - time_started := by
    rw [Nat.mod_eq_of_lt hnow, Nat.mod_eq_of_lt hstlt]
    have h1 : now + 2^32 - time_started = (now - time_started) + 2^32 := by
      omega
    rw [h1, Nat.add_mod_right, Nat.mod_eq_of_lt (by omega)]
  have hbmod : bytes % 2^64 = bytes := Nat.mod_eq_of_lt hb
  refine ⟨?_, ?_, fun n s b => ⟨rfl, rfl⟩⟩
  · unfold lwip_tcp_conn_report
    rw [if_pos rfl]
    simp only [hdur, hbmod]
    by_cases hz : now - time_started = 0
    · simp [hz]
    · rw [if_neg hz, if_neg hz, Nat.mod_eq_of_lt hbw]
  · unfold lwip_udp_conn_report
    rw [if_pos rfl]
    simp only [hdur, hbmod]
    by_cases hz : now - time_started = 0
    · simp [hz]
    · rw [if_neg hz, if_neg hz, Nat.mul_comm 8 bytes, Nat.mod_eq_of_lt hbw]

/-- Concrete instantiation for `conn_report_duration_bandwidth`: one second
of test at 125000 bytes gives 1000 kbit/s; absent callbacks emit nothing. -/
theorem conn_report_duration_bandwidth_witness :
    lwip_tcp_conn_report true 2000 1000 125000 = some ⟨125000, 1000, 1000⟩
    ∧ lwip_udp_conn_report true 2000 1000 125000 = some ⟨125000, 1000, 1000⟩
    ∧ (∀ n s b, lwip_tcp_conn_report false n s b = none
        ∧ lwip_udp_conn_report false n s b = none) := by
  have := conn_report_duration_bandwidth 2000 1000 125000
    (by norm_num) (by norm_num) (by norm_num) (by norm_num)
  exact ⟨by rw [this.1]; norm_num, by rw [this.2.1]; norm_num, this.2.2⟩

/-- The byte-counter update of a successful `tcp_write` in
`lwiperf_tcp_client_send_more` (lwiperf.c lines 494-497): the counter
accumulates only when this session is the data source
(`server || !reverse`). -/
def lwiperf_tcp_sent_bytes (server reverse : Bool) (bytes txlen : Nat) : Nat :=
  if server || !reverse then (bytes + txlen) % 2^64 else bytes

/-- The byte-counter update of `lwiperf_tcp_recv` for a received payload
(lwiperf.c lines 723-725): the counter accumulates only when this session
is the data sink (`!server || !reverse`). -/
def lwiperf_tcp_recv_bytes (server reverse : Bool) (bytes tot_len : Nat) : Nat :=
  if !server || !reverse then (bytes + tot_len) % 2^64 else bytes

/-- The handling of a server report received by a UDP client instance
(lwiperf.c lines 1467-1491): on the first report whose flags carry
LWIPERF_FLAGS_ANSWER_TEST, `bytes_transferred` is OVERWRITTEN with the
64-bit total assembled from the report's `total_len1`/`total_len2` words,
and the report count is incremented.  Returns the new
(bytes_transferred, report_count). -/
def lwiperf_udp_recv_client_report (report_count bytes : Nat)
    (hdrAnswerTest : Bool) (total_len1 total_len2 : Nat) : Nat × Nat :=
  let bytes2 :=
    if report_count = 0 then
      if hdrAnswerTest then
        (total_len1 % 2^32 * 2^32 + total_len2 % 2^32) % 2^64
      else bytes
    else bytes
  let rc2 := if hdrAnswerTest then report_count + 1 else report_count
  (bytes2, rc2)

/-- C2 counterexample: a UDP client holding 100 transferred bytes that
receives a first server report announcing a 50-byte total has its
`bytes_transferred` assigned the smaller value 50. -/
theorem udp_client_report_overwrite_decreases :
    (lwiperf_udp_recv_client_report 0 100 true 0 50).1 < 100 := by
  decide

/-- C2 (amended): every accumulation path executed by receive and send
operations only adds non-negative amounts to `bytes_transferred` (so the
counter is non-decreasing wherever the 64-bit addition does not wrap),
but the client's handling of a first server report is an exception: it
overwrites the counter with the server-announced total, which may be
smaller. -/
theorem bytes_transferred_monotone_except_report :
    (∀ (server reverse : Bool) (bytes txlen : Nat), bytes + txlen < 2^64 →
      bytes ≤ lwiperf_tcp_sent_bytes server reverse bytes txlen)
    ∧ (∀ (server reverse : Bool) (bytes tot_len : Nat), bytes + tot_len < 2^64 →
      bytes ≤ lwiperf_tcp_recv_bytes server reverse bytes tot_len)
    ∧ (∀ (datagramID tot_len : Nat) (s : UdpRxStats),
        s.bytes_transferred + tot_len < 2^64 →
      s.bytes_transferred
        ≤ (lwiperf_udp_recv_stats datagramID tot_len s).bytes_transferred)
    ∧ (∀ (bytes total_len1 total_len2 : Nat),
      (lwiperf_udp_recv_client_report 0 bytes true total_len1 total_len2).1
        = total_len1 % 2^32 * 2^32 + total_len2 % 2^32) := by
  refine ⟨?_, ?_, ?_, ?_⟩
  · intro server reverse bytes txlen hw
    unfold lwiperf_tcp_sent_bytes
    split
    · rw [Nat.mod_eq_of_lt hw]; omega
    · exact le_rfl
  · intro server reverse bytes tot_len hw
    unfold lwiperf_tcp_recv_bytes
    split
    · rw [Nat.mod_eq_of_lt hw]; omega
    · exact le_rfl
  · intro datagramID tot_len s hw
    have hbt : (lwiperf_udp_recv_stats datagramID tot_len s).bytes_transferred
        = (s.bytes_transferred + tot_len) % 2^64 := by
      unfold lwiperf_udp_recv_stats
      dsimp only
      split <;> rfl
    rw [hbt, Nat.mod_eq_of_lt hw]
    omega
  · intro bytes total_len1 total_len2
    unfold lwiperf_udp_recv_client_report
    simp only [if_pos rfl, if_true]
    exact Nat.mod_eq_of_lt (by
      have h1 : total_len1 % 2^32 ≤ 2^32 - 1 :=
        Nat.le_sub_one_of_lt (Nat.mod_lt _ (by norm_num))
      have h2 : total_len2 % 2^32 ≤ 2^32 - 1 :=
        Nat.le_sub_one_of_lt (Nat.mod_lt _ (by norm_num))
      calc total_len1 % 2^32 * 2^32 + total_len2 % 2^32
          ≤ (2^32 - 1) * 2^32 + (2^32 - 1) :=
            Nat.add_le_add (Nat.mul_le_mul_right _ h1) h2
        _ < 2^64 := by norm_num)

/-- Concrete instantiation for `bytes_transferred_monotone_except_report`. -/
theorem bytes_transferred_monotone_witness :
    (100 ≤ lwiperf_tcp_sent_bytes false false 100 50
      ∧ 100 ≤ lwiperf_tcp_recv_bytes true false 100 50
      ∧ (20 : Nat) ≤ (lwiperf_udp_recv_stats 0 30
          ⟨0, 0, 0, 0, 20⟩).bytes_transferred)
    ∧ (lwiperf_udp_recv_client_report 0 100 true 0 50).1 = 50 := by
  have h := bytes_transferred_monotone_except_report
  refine ⟨⟨h.1 false false 100 50 (by norm_num),
    h.2.1 true false 100 50 (by norm_num),
    h.2.2.1 0 30 ⟨0, 0, 0, 0, 20⟩ (by norm_num)⟩, ?_⟩
  have := h.2.2.2 100 0 50
  simpa using this

/-- Outcome of one loop iteration's transport interaction in
`lwiperf_udp_client_send_more`: `pbuf_alloc` failing, `udp_send` failing,
or the datagram being sent. -/
inductive UdpFrameOutcome where
  | allocFail
  | sendFail
  | sendOk
deriving DecidableEq, Repr

/-- The report types reachable from the UDP send scheduler's termination
branch. -/
inductive UdpDoneReason where
  | doneServerTx
  | doneClientTx
deriving DecidableEq, Repr

/-- The session fields read and written by `lwiperf_udp_client_send_more`
(`struct _lwiperf_state_udp`): direction flags, the encoded amount, the
report count, the byte and sequence counters, the pacing state and the
time bookkeeping (timespec values flattened to microseconds). -/
structure UdpTxConn where
  server : Bool
  reverse : Bool
  amount : Nat
  report_count : Nat
  bytes_transferred : Nat
  udp_seq : Nat
  delay_target : Nat
  frames_per_delay : Nat
  buffer_len : Nat
  lastpkt_us : Nat
  time_started : Nat
deriving DecidableEq, Repr

/-- The state effect of one successfully sent datagram inside the send
loop of `lwiperf_udp_client_send_more` (lwiperf.c lines 1241-1275): the
packet was stamped and `udp_lastpkt = ts` recorded before the send; after
a successful `udp_send`, `udp_seq` and `bytes_transferred` advance unless
this is a reverse session acting as server, and in the ending phase the
pacing switches to a 50 ms retry delay with 10 frames per delay. -/
def udpSendOkUpdate (ending : Bool) (ts_us : Nat) (conn : UdpTxConn) :
    UdpTxConn :=
  let c1 := { conn with lastpkt_us := ts_us }
  let c2 :=
    if !c1.server || !c1.reverse then
      { c1 with udp_seq := (c1.udp_seq + 1) % 2^32,
                bytes_transferred :=
                  (c1.bytes_transferred + c1.buffer_len) % 2^64 }
    else c1
  if ending then { c2 with delay_target := 50000, frames_per_delay := 10 }
  else c2

/-- The send loop of `lwiperf_udp_client_send_more` (lwiperf.c lines
1232-1281), iterating `i` against the (mutable!) `frames_per_delay`
bound: each iteration allocates a pbuf of `buffer_len` bytes (allocation
failure returns, the session untouched), stamps the packet and records
`udp_lastpkt = ts`, and sends it; a send failure frees the pbuf and
returns without touching counters (the datagram is simply lost); a
successful send applies `udpSendOkUpdate` and frees the pbuf.  The fuel
argument strictly exceeds every reachable loop count. -/
def udpSendLoop (ending : Bool) (ts_us : Nat) (oracle : Nat → UdpFrameOutcome) :
    Nat → Nat → UdpTxConn → UdpTxConn × List UdpFrameOutcome
  | 0, _, conn => (conn, [])
  | fuel + 1, i, conn =>
    if i < conn.frames_per_delay then
      match oracle i with
      | .allocFail => (conn, [UdpFrameOutcome.allocFail])
      | .sendFail => ({ conn with lastpkt_us := ts_us }, [UdpFrameOutcome.sendFail])
      | .sendOk =>
        let r := udpSendLoop ending ts_us oracle fuel (i + 1)
          (udpSendOkUpdate ending ts_us conn)
        (r.1, UdpFrameOutcome.sendOk :: r.2)
    else (conn, [])

/-- The result of one invocation of `lwiperf_udp_client_send_more`: the
updated session, whether (and why) the session was closed, and the
transport interactions that took place. -/
structure UdpSendMoreResult where
  conn : UdpTxConn
  closed : Option UdpDoneReason
  events : List UdpFrameOutcome
deriving DecidableEq, Repr

/-- The `ending` level computed at the head of
`lwiperf_udp_client_send_more` (lwiperf.c lines 1198-1217) from the byte
or time target, with the +4096 bytes / +500 ms overshoot margin. -/
def udpSendMoreEnding (conn : UdpTxConn) (now_ms : Nat) : Nat :=
  if conn.amount % 2^32 ≥ 2^31 then
    let diff_ms := (now_ms % 2^32 + 2^32 - conn.time_started % 2^32) % 2^32
    let time_ms := ((2^32 - conn.amount % 2^32) * 10) % 2^32
    if diff_ms ≥ time_ms then (if diff_ms > time_ms + 500 then 2 else 1)
    else 0
  else
    if conn.bytes_transferred ≥ conn.amount % 2^32 then
      (if conn.bytes_transferred ≥ conn.amount % 2^32 + 4096 then 2 else 1)
    else 0

/-- `lwiperf_udp_client_send_more` (lwiperf.c lines 1187-1282): compute the
`ending` level, close with a done reason once `ending` exceeds 1 or a
report was already sent, otherwise rate-gate on the time since the last
packet and run the send loop. -/
def lwiperf_udp_client_send_more (conn : UdpTxConn) (now_ms ts_us : Nat)
    (oracle : Nat → UdpFrameOutcome) : UdpSendMoreResult :=
  let ending := udpSendMoreEnding conn now_ms
  if ending ≠ 0 ∧ (1 < ending ∨ 0 < conn.report_count) then
    ⟨conn, some (if conn.reverse then UdpDoneReason.doneServerTx
                 else UdpDoneReason.doneClientTx), []⟩
  else if ts_us - conn.lastpkt_us < conn.delay_target then
    ⟨conn, none, []⟩
  else
    let r := udpSendLoop (decide (ending ≠ 0)) ts_us oracle
      (conn.frames_per_delay + 10) 0 conn
    ⟨r.1, none, r.2⟩

theorem udpSendOkUpdate_server (ending : Bool) (ts_us : Nat)
    (conn : UdpTxConn) :
    (udpSendOkUpdate ending ts_us conn).server = conn.server := by
  unfold udpSendOkUpdate
  dsimp only
  split <;> split <;> rfl

theorem udpSendOkUpdate_reverse (ending : Bool) (ts_us : Nat)
    (conn : UdpTxConn) :
    (udpSendOkUpdate ending ts_us conn).reverse = conn.reverse := by
  unfold udpSendOkUpdate
  dsimp only
  split <;> split <;> rfl

theorem udpSendOkUpdate_buffer_len (ending : Bool) (ts_us : Nat)
    (conn : UdpTxConn) :
    (udpSendOkUpdate ending ts_us conn).buffer_len = conn.buffer_len := by
  unfold udpSendOkUpdate
  dsimp only
  split <;> split <;> rfl

theorem udpSendOkUpdate_bytes (ending : Bool) (ts_us : Nat)
    (conn : UdpTxConn) (hsr : (!conn.server || !conn.reverse) = true) :
    (udpSendOkUpdate ending ts_us conn).bytes_transferred
      = (conn.bytes_transferred + conn.buffer_len) % 2^64 := by
  unfold udpSendOkUpdate
  dsimp only
  rw [if_pos hsr]
  split <;> rfl

theorem udpSendOkUpdate_bytes_ne (ending : Bool) (ts_us : Nat)
    (conn : UdpTxConn) (hsr : ¬ (!conn.server || !conn.reverse) = true) :
    (udpSendOkUpdate ending ts_us conn).bytes_transferred
      = conn.bytes_transferred := by
  unfold udpSendOkUpdate
  dsimp only
  rw [if_neg hsr]
  split <;> rfl

theorem udpSendOkUpdate_bytes_lt (ending : Bool) (ts_us : Nat)
    (conn : UdpTxConn) (hb : conn.bytes_transferred < 2^64) :
    (udpSendOkUpdate ending ts_us conn).bytes_transferred < 2^64 := by
  by_cases hsr : (!conn.server || !conn.reverse) = true
  · rw [udpSendOkUpdate_bytes ending ts_us conn hsr]
    exact Nat.mod_lt _ (by norm_num)
  · rw [udpSendOkUpdate_bytes_ne ending ts_us conn hsr]
    exact hb

theorem udpSendLoop_accounting (ending : Bool) (ts_us : Nat)
    (oracle : Nat → UdpFrameOutcome) :
    ∀ (fuel i : Nat) (conn : UdpTxConn), conn.bytes_transferred < 2^64 →
    ((!conn.server || !conn.reverse) = true →
      (udpSendLoop ending ts_us oracle fuel i conn).1.bytes_transferred
        = (conn.bytes_transferred + conn.buffer_len *
            ((udpSendLoop ending ts_us oracle fuel i conn).2.count
              UdpFrameOutcome.sendOk)) % 2^64) := by
  intro fuel
  induction fuel with
  | zero =>
    intro i conn hb hsr
    simp [udpSendLoop]
    omega
  | succ f ih =>
    intro i conn hb hsr
    by_cases hi : i < conn.frames_per_delay
    · cases ho : oracle i with
      | allocFail =>
        simp [udpSendLoop, hi, ho]
        omega
      | sendFail =>
        simp [udpSendLoop, hi, ho]
        omega
      | sendOk =>
        simp only [udpSendLoop, if_pos hi, ho]
        have hsr' : (!(udpSendOkUpdate ending ts_us conn).server
            || !(udpSendOkUpdate ending ts_us conn).reverse) = true := by
          rw [udpSendOkUpdate_server, udpSendOkUpdate_reverse]
          exact hsr
        have hrec := ih (i + 1) (udpSendOkUpdate ending ts_us conn)
          (udpSendOkUpdate_bytes_lt ending ts_us conn hb) hsr'
        rw [hrec, udpSendOkUpdate_bytes ending ts_us conn hsr,
          udpSendOkUpdate_buffer_len]
        rw [List.count_cons]
        simp only [beq_self_eq_true, if_true]
        rw [Nat.mod_add_mod]
        congr 1
        ring
    · simp [udpSendLoop, hi]
      omega

theorem sendMore_closed_or_loop (conn : UdpTxConn) (now_ms ts_us : Nat)
    (oracle : Nat → UdpFrameOutcome) :
    (lwiperf_udp_client_send_more conn now_ms ts_us oracle).events = []
    ∨ ((lwiperf_udp_client_send_more conn now_ms ts_us oracle).closed = none
      ∧ ∃ e : Bool, lwiperf_udp_client_send_more conn now_ms ts_us oracle
          = ⟨(udpSendLoop e ts_us oracle (conn.frames_per_delay + 10) 0 conn).1,
             none,
             (udpSendLoop e ts_us oracle (conn.frames_per_delay + 10) 0 conn).2⟩) := by
  unfold lwiperf_udp_client_send_more
  dsimp only
  split
  · left; rfl
  · split
    · left; rfl
    · right
      exact ⟨rfl, _, rfl⟩

/-- C8: whenever the transport send primitive fails during an invocation of
the UDP pacing send routine, that invocation does not close the session
(`closed = none`, hence no unregistering, no report, no free of the
session state: those happen only in `lwiperf_udp_close`), and the failing
datagram is simply dropped — the byte counter accounts exactly the
successfully sent frames (the allocated payload buffer of the failed
frame is released inside the loop before returning). -/
theorem udp_send_failure_nonfatal (conn : UdpTxConn) (now_ms ts_us : Nat)
    (oracle : Nat → UdpFrameOutcome)
    (hb : conn.bytes_transferred < 2^64)
    (hf : UdpFrameOutcome.sendFail
      ∈ (lwiperf_udp_client_send_more conn now_ms ts_us oracle).events) :
    (lwiperf_udp_client_send_more conn now_ms ts_us oracle).closed = none
    ∧ ((!conn.server || !conn.reverse) = true →
      (lwiperf_udp_client_send_more conn now_ms ts_us
          oracle).conn.bytes_transferred
        = (conn.bytes_transferred + conn.buffer_len *
            ((lwiperf_udp_client_send_more conn now_ms ts_us
                oracle).events.count UdpFrameOutcome.sendOk)) % 2^64) := by
  rcases sendMore_closed_or_loop conn now_ms ts_us oracle with he | ⟨hc, e, heq⟩
  · rw [he] at hf
    simp at hf
  · refine ⟨hc, fun hsr => ?_⟩
    rw [heq]
    exact udpSendLoop_accounting e ts_us oracle (conn.frames_per_delay + 10) 0
      conn hb hsr

/-- Concrete instantiation for `udp_send_failure_nonfatal`: a byte-limited
client session whose first frame's `udp_send` fails stays open with its
byte counter unchanged. -/
theorem udp_send_failure_nonfatal_witness :
    (lwiperf_udp_client_send_more
        ⟨false, false, 1000, 0, 0, 0, 0, 1, 100, 0, 0⟩ 0 0
        (fun _ => UdpFrameOutcome.sendFail)).closed = none
    ∧ (lwiperf_udp_client_send_more
        ⟨false, false, 1000, 0, 0, 0, 0, 1, 100, 0, 0⟩ 0 0
        (fun _ => UdpFrameOutcome.sendFail)).conn.bytes_transferred
      = (0 + 100 * ((lwiperf_udp_client_send_more
          ⟨false, false, 1000, 0, 0, 0, 0, 1, 100, 0, 0⟩ 0 0
          (fun _ => UdpFrameOutcome.sendFail)).events.count
            UdpFrameOutcome.sendOk)) % 2^64 := by
  have := udp_send_failure_nonfatal
    ⟨false, false, 1000, 0, 0, 0, 0, 1, 100, 0, 0⟩ 0 0
    (fun _ => UdpFrameOutcome.sendFail) (by norm_num) (by decide)
  exact ⟨this.1, this.2 (by decide)⟩

/-- The host clock resolution in microseconds (CLOCK_RESOLUTION_US,
lwiperf.c line 98, non-FreeRTOS value). -/
def CLOCK_RESOLUTION_US : Nat := 1000

/-- `lwiperf_udp_set_client_rate` (lwiperf.c lines 1166-1183): the ideal
inter-frame delay is `buf_len * 8 * 1000000 / rate` (64-bit quotient
stored into the 32-bit `delay_target`), truncated to the clock
resolution; if truncation yields zero, the delay becomes one clock tick
and `frames_per_delay` is `CLOCK_RESOLUTION_US` divided by the same
32-bit quotient.  Both divisions use `rate` (resp. the quotient) as
divisor with no zero check; `none` represents the C division by zero
(undefined behaviour).  `rate` is the u64 value the `s32_t` argument
converts to. -/
def lwiperf_udp_set_client_rate (rate buf_len : Nat) : Option (Nat × Nat) :=
  if rate = 0 then none
  else
    let ideal32 := buf_len * 8 * 1000000 / rate % 2^32
    let delay_target := ideal32 / CLOCK_RESOLUTION_US * CLOCK_RESOLUTION_US
    if delay_target = 0 then
      if ideal32 = 0 then none
      else some (CLOCK_RESOLUTION_US, CLOCK_RESOLUTION_US / ideal32)
    else some (delay_target, 1)

/-- The client types of `enum lwiperf_client_type`. -/
inductive LwiperfClientType where
  | client
  | dual
  | tradeoff
  | reverse
deriving DecidableEq, Repr

/-- The pacing-state initialisation of `lwiperf_start_udp_client`
(lwiperf.c lines 1822-1826): the REVERSE type skips the rate computation
(`frames_per_delay = 1` workaround); every other type passes the
caller-supplied `rate` straight to `lwiperf_udp_set_client_rate`. -/
def lwiperf_start_udp_client_pacing (type : LwiperfClientType)
    (rate buf_len : Nat) : Option (Nat × Nat) :=
  match type with
  | .reverse => some (0, 1)
  | _ => lwiperf_udp_set_client_rate rate buf_len

/-- The rate selection of `lwiperf_udp_tx_start` (lwiperf.c lines
1354-1365): with the peer's LWIPERF_FLAGS_EXTEND set, the extended
settings' `rate` field is used; otherwise a non-zero `win_band` is used;
otherwise the 1024*1024 default.  `buf_len` here is 1450 or 1470
depending on address family (line 1352). -/
def lwiperf_udp_tx_start_pacing (extend : Bool) (extRate win_band buf_len : Nat) :
    Option (Nat × Nat) :=
  if extend then lwiperf_udp_set_client_rate extRate buf_len
  else if win_band ≠ 0 then lwiperf_udp_set_client_rate win_band buf_len
  else lwiperf_udp_set_client_rate (1024 * 1024) buf_len

/-- C10 counterexample: a rate of 0 passed to the public
`lwiperf_start_udp_client` entry point (non-reverse type), or a zero rate
field in received extended settings handled by `lwiperf_udp_tx_start`,
reaches `lwiperf_udp_set_client_rate` unchecked and the first division is
performed with divisor 0. -/
theorem udp_zero_rate_division_reached :
    lwiperf_start_udp_client_pacing LwiperfClientType.client 0 1470 = none
    ∧ lwiperf_udp_tx_start_pacing true 0 0 1470 = none := by
  decide

theorem set_client_rate_isSome (rate buf_len : Nat) (h0 : rate ≠ 0)
    (hq : buf_len * 8 * 1000000 / rate % 2^32 ≠ 0) :
    (lwiperf_udp_set_client_rate rate buf_len).isSome := by
  unfold lwiperf_udp_set_client_rate
  rw [if_neg h0]
  dsimp only
  split
  all_goals rfl

theorem win_band_quotient_ne_zero (A w : Nat) (hw : 0 < w) (hw4 : w < 2^32)
    (hA2 : 2 * (2^32 - 1) ≤ A) (hA3 : A < 3 * 2^32)
    (h1 : A % 2^32 ≠ 0) (h2 : A / 2 % 2^32 ≠ 0) :
    A / w % 2^32 ≠ 0 := by
  by_cases hw3 : 3 ≤ w
  · have hlt : A / w < 2^32 := by
      have : A / w ≤ A / 3 := Nat.div_le_div_left hw3 (by norm_num)
      have h3 : A / 3 < 2^32 := by omega
      omega
    have hge : 2 ≤ A / w := by
      have hle : A / w ≥ A / (2^32 - 1) := Nat.div_le_div_left (by omega) hw
      have : 2 ≤ A / (2^32 - 1) := (Nat.le_div_iff_mul_le (by norm_num)).mpr (by omega)
      omega
    rw [Nat.mod_eq_of_lt hlt]
    omega
  · interval_cases w
    · simpa using h1
    · exact h2

/-- C10 (amended): the divisions of the pacing-delay computation are
performed with a nonzero divisor on the non-extended paths of
`lwiperf_udp_tx_start` (peer `win_band` rate, zero or not, with the fixed
1450/1470 buffer lengths; 32-bit `win_band`), but NOT at the public
interface in general: a zero caller rate reaching
`lwiperf_start_udp_client` (non-reverse) or a zero extended-settings rate
in `lwiperf_udp_tx_start` is divided by unchecked, reaching the division
with divisor zero. -/
theorem udp_tx_start_nonextend_rate_total (extRate win_band : Nat)
    (hw : win_band < 2^32) :
    (lwiperf_udp_tx_start_pacing false extRate win_band 1470).isSome
    ∧ (lwiperf_udp_tx_start_pacing false extRate win_band 1450).isSome := by
  constructor
  · unfold lwiperf_udp_tx_start_pacing
    rw [if_neg (by simp)]
    by_cases hwz : win_band = 0
    · rw [if_neg (by simp [hwz])]
      decide
    · rw [if_pos hwz]
      exact set_client_rate_isSome win_band 1470 hwz
        (win_band_quotient_ne_zero (1470 * 8 * 1000000) win_band
          (Nat.pos_of_ne_zero hwz) hw (by norm_num) (by norm_num)
          (by norm_num) (by norm_num))
  · unfold lwiperf_udp_tx_start_pacing
    rw [if_neg (by simp)]
    by_cases hwz : win_band = 0
    · rw [if_neg (by simp [hwz])]
      decide
    · rw [if_pos hwz]
      exact set_client_rate_isSome win_band 1450 hwz
        (win_band_quotient_ne_zero (1450 * 8 * 1000000) win_band
          (Nat.pos_of_ne_zero hwz) hw (by norm_num) (by norm_num)
          (by norm_num) (by norm_num))

/-- Concrete instantiation for `udp_tx_start_nonextend_rate_total`:
a peer-announced `win_band` of 1 Mbit/s. -/
theorem udp_tx_start_nonextend_rate_total_witness :
    (lwiperf_udp_tx_start_pacing false 0 1000000 1470).isSome
    ∧ (lwiperf_udp_tx_start_pacing false 0 1000000 1450).isSome :=
  udp_tx_start_nonextend_rate_total 0 1000000 (by norm_num)
